import Mathlib

/-!
Verification development for the FiatLux schedule pipeline.

This file gives a shallow embedding, in Lean 4, of the two core components of
the repository:

* `DataManager` (src/src/storage/dataManager.ts) — the in-memory schedule
  store with upsert (`saveSchedule`), archival reconciliation
  (`archiveOlderSchedules`), the relevance window, history queries and
  cleanup.
* `ScheduleParser` — the message parser.  The repository contains two
  revisions of this module: the one at src/src/parsers/scheduleParser.ts
  (embedded in namespace `ScheduleParser`) and the refactored revision at
  src/unnamed/part_004 (embedded in namespace `ScheduleParserV2`), which
  adds year-rollover resolution, an hour bound on time slots, day/month
  validation and a `strict` flag.

Modelling conventions (documented where used):

* Calendar days are modelled as day ordinals (`Nat`): the TypeScript code
  normalises every `Date` with `setHours(0,0,0,0)` before comparing, so a
  calendar day is a single integer; `today` is an explicit parameter
  standing for the ambient `new Date()`.
* Publication instants (`publishedAt`) are modelled as `Nat` timestamps;
  the code only ever compares them with `<` via `new Date(..).getTime()`.
* Strings are processed as `List Char`; the JavaScript regular expressions
  used by the source are implemented as dedicated scanners with the same
  leftmost-match / `matchAll` (advance past each match) semantics,
  including greedy matching with backtracking where it is observable.
-/

/- ### Store model (src/src/storage/dataManager.ts) -/

namespace DataManager

/-- The store-relevant projection of the `Schedule` record
(src/src/types/index.ts).  `DataManager` only ever inspects `id`, `date`,
`publishedAt` and `archived`; the remaining payload fields (`type`,
`queues`, `rawText`, `messageId`, `channelId`) are never read by the store
and are represented here by the single field `rawText`.  `date` is a day
ordinal and `publishedAt` a timestamp, as explained in the file header. -/
structure Schedule where
  id : Nat
  date : Nat
  publishedAt : Nat
  archived : Bool
  rawText : String
deriving DecidableEq, Repr

/-- The body of the `for` loop of `DataManager.archiveOlderSchedules`
(dataManager.ts lines 65-89), as the update applied to one stored record
`s` when `ns` has just been inserted: skip the new record itself and
already-archived records; archive records dated strictly before today;
archive same-date records published strictly earlier than `ns`. -/
def archiveStep (today : Nat) (ns s : Schedule) : Schedule :=
  if s.id = ns.id then s
  else if s.archived then s
  else if s.date < today then { s with archived := true }
  else if s.date = ns.date ∧ s.publishedAt < ns.publishedAt then
    { s with archived := true }
  else s

/-- Embeds `DataManager.archiveOlderSchedules` (dataManager.ts lines
58-90).  The TypeScript `for` loop mutates records in the array; the
embedding maps the per-record update `archiveStep` over the list. -/
def archiveOlderSchedules (today : Nat) (ns : Schedule) (store : List Schedule) :
    List Schedule :=
  store.map (archiveStep today ns)

/-- Embeds `DataManager.saveSchedule` (dataManager.ts lines 35-53):
`findIndex` on `id`; on a hit, replace that record in place and return
`false`; on a miss, push the new record, run archival reconciliation and
return `true`. -/
def saveSchedule (today : Nat) (sched : Schedule) (store : List Schedule) :
    Bool × List Schedule :=
  match store.findIdx? (fun s => s.id == sched.id) with
  | some i => (false, store.set i sched)
  | none => (true, archiveOlderSchedules today sched (store ++ [sched]))

/-- Embeds `DataManager.isRelevantSchedule` (dataManager.ts lines 95-109):
the record's day lies in the half-open window `[today, today + 2)`,
i.e. is today or tomorrow. -/
def isRelevantSchedule (today : Nat) (s : Schedule) : Bool :=
  decide (today ≤ s.date ∧ s.date < today + 2)

/-- Descending-`publishedAt` comparison used by the store's query sorts
(`sort((a, b) => new Date(b.publishedAt).getTime() - new Date(a.publishedAt).getTime())`). -/
def pubDesc (a b : Schedule) : Prop := b.publishedAt ≤ a.publishedAt

instance : DecidableRel pubDesc := fun a b =>
  inferInstanceAs (Decidable (b.publishedAt ≤ a.publishedAt))

instance : IsTotal Schedule pubDesc :=
  ⟨fun a b => by unfold pubDesc; exact Nat.le_total _ _⟩

instance : IsTrans Schedule pubDesc := ⟨fun _ _ _ hab hbc => Nat.le_trans hbc hab⟩

/-- Embeds `DataManager.getHistory` (dataManager.ts lines 163-168): filter
to the relevant window, sort by `publishedAt` descending (a stable sort,
as JavaScript's `Array.prototype.sort` is), truncate to `limit`. -/
def getHistory (today : Nat) (limit : Nat) (store : List Schedule) :
    List Schedule :=
  (((store.filter (isRelevantSchedule today)).insertionSort pubDesc).take limit)

/-- `getHistory` invoked without an explicit limit: the TypeScript default
parameter is `limit: number = 10`. -/
def getHistoryDefault (today : Nat) (store : List Schedule) : List Schedule :=
  getHistory today 10 store

/-- Embeds `DataManager.cleanupOldSchedules` (dataManager.ts lines
180-190): drop every archived record, returning the removed count and the
remaining store. -/
def cleanupOldSchedules (store : List Schedule) : Nat × List Schedule :=
  let remaining := store.filter (fun s => !s.archived)
  (store.length - remaining.length, remaining)

/-- A mutating store operation.  The query operations
(`getCurrentSchedule`, `getFutureSchedule`, `getAllSchedules`,
`getHistory`, `getCount`) are read-only — they `filter`/`sort`/`slice`
fresh arrays and never write a record — so a reachable store state is any
state produced from the empty store by `saveSchedule` and
`cleanupOldSchedules` alone. -/
inductive Op where
  | save (today : Nat) (s : Schedule)
  | cleanup
deriving Repr

/-- One mutating operation applied to the store. -/
def applyOp (st : List Schedule) : Op → List Schedule
  | .save t s => (saveSchedule t s st).2
  | .cleanup => (cleanupOldSchedules st).2

/-- A sequence of mutating operations applied to the store. -/
def runOps (ops : List Op) (st : List Schedule) : List Schedule :=
  ops.foldl applyOp st

/-- Whether an operation is a `saveSchedule` call whose argument carries
the record id `i`. -/
def Op.savesId (i : Nat) : Op → Prop
  | .save _ s => s.id = i
  | .cleanup => False

end DataManager

/- ### Text utilities shared by both parser revisions -/

namespace TextUtil

/-- Decimal digit test (`\d` of the source's regular expressions). -/
def isDigit (c : Char) : Bool := decide ('0' ≤ c ∧ c ≤ '9')

/-- Whitespace test (`\s`).  JavaScript's `\s` covers further Unicode
space characters; the channel texts handled by the source contain only
these four. -/
def isSpaceJS (c : Char) : Bool :=
  decide (c = ' ' ∨ c = '\t' ∨ c = '\n' ∨ c = '\r')

/-- `String.prototype.toLowerCase` restricted to the alphabets the source
deals with: ASCII plus the Cyrillic blocks used by Ukrainian
(А-Я → а-я, Ѐ-Џ → ѐ-џ covering І, Ї, Є, and Ґ → ґ). -/
def lowerChar (c : Char) : Char :=
  if decide ('A' ≤ c ∧ c ≤ 'Z') then Char.ofNat (c.toNat + 32)
  else if decide (0x410 ≤ c.toNat ∧ c.toNat ≤ 0x42F) then Char.ofNat (c.toNat + 0x20)
  else if decide (0x400 ≤ c.toNat ∧ c.toNat ≤ 0x40F) then Char.ofNat (c.toNat + 0x50)
  else if c.toNat = 0x490 then Char.ofNat 0x491
  else c

/-- `toLowerCase` over a whole text. -/
def lowerStr (cs : List Char) : List Char := cs.map lowerChar

/-- `parseInt` on a string of decimal digits. -/
def natOfDigits (ds : List Char) : Nat :=
  ds.foldl (fun n c => n * 10 + (c.toNat - '0'.toNat)) 0

/-- `String.prototype.includes` (substring containment). -/
def containsSub : List Char → List Char → Bool
  | [], sub => sub.isEmpty
  | c :: rest, sub => sub.isPrefixOf (c :: rest) || containsSub rest sub

/-- `String.prototype.indexOf` (position of the first occurrence). -/
def indexOfSub : List Char → List Char → Option Nat
  | [], sub => if sub.isEmpty then some 0 else none
  | c :: rest, sub =>
    if sub.isPrefixOf (c :: rest) then some 0
    else (indexOfSub rest sub).map (· + 1)

/-- `String(n).padStart(2, '0')`. -/
def padStart2 (ds : List Char) : List Char :=
  List.replicate (2 - ds.length) '0' ++ ds

/-- Decimal rendering of a natural number (template-literal `${n}`). -/
def natDigits (n : Nat) : List Char := (Nat.repr n).data

/-- Decimal rendering of an integer (template-literal `${i}`). -/
def intDigits (i : Int) : List Char := (toString i).data

/-- `matchAll` driver: repeatedly attempt a leftmost match; on success
record it and resume after the matched span (the regex `lastIndex`
advances to the match end; every pattern below matches at least one
character), otherwise advance one position.  The fuel argument (always
called with the text length, which bounds the number of steps) keeps the
recursion structural so that concrete runs reduce inside the kernel. -/
def scanAllFuel {A : Type} (tryM : List Char → Option (A × Nat)) :
    Nat → List Char → List A
  | 0, _ => []
  | _, [] => []
  | fuel + 1, c :: rest =>
    match tryM (c :: rest) with
    | some (a, k) => a :: scanAllFuel tryM fuel (List.drop (k - 1) rest)
    | none => scanAllFuel tryM fuel rest

/-- All matches of a pattern, left to right, duplicates preserved
(`[...text.matchAll(pattern)]`). -/
def scanAll {A : Type} (tryM : List Char → Option (A × Nat)) (cs : List Char) :
    List A :=
  scanAllFuel tryM cs.length cs

/-- The first match of a pattern (`text.match(pattern)` without `g`, or
`matches[0]`). -/
def scanFirst {A : Type} (tryM : List Char → Option (A × Nat))
    (cs : List Char) : Option A :=
  (scanAll tryM cs).head?

/-- The captured groups of one `HH:MM[-–—]HH:MM` match:
`(\d{1,2}):(\d{2})\s*[-–—]\s*(\d{1,2}):(\d{2})`. -/
structure TimeMatch where
  g1 : List Char
  g2 : List Char
  g3 : List Char
  g4 : List Char
deriving DecidableEq, Repr

/-- Attempt the time-range pattern at the current position.  A maximal
digit run longer than two cannot match `\d{1,2}` here (backtracking to a
shorter prefix leaves a digit where `:` or the dash is required), hence
the length tests, which reproduce the JavaScript engine's behaviour. -/
def tryTimeCore (cs : List Char) : Option (TimeMatch × Nat) :=
  let (d1, r1) := cs.span isDigit
  if d1.length = 0 ∨ 2 < d1.length then none
  else match r1 with
  | ':' :: m1 :: m2 :: r3 =>
    if isDigit m1 && isDigit m2 then
      let (ws1, r4) := r3.span isSpaceJS
      match r4 with
      | d :: r5 =>
        if d = '-' ∨ d = '–' ∨ d = '—' then
          let (ws2, r6) := r5.span isSpaceJS
          let (e1, r7) := r6.span isDigit
          if e1.length = 0 ∨ 2 < e1.length then none
          else match r7 with
          | ':' :: n1 :: n2 :: _ =>
            if isDigit n1 && isDigit n2 then
              some (⟨d1, [m1, m2], e1, [n1, n2]⟩,
                d1.length + 3 + ws1.length + 1 + ws2.length + e1.length + 3)
            else none
          | _ => none
        else none
      | [] => none
    else none
  | _ => none

/-- The padded `TimeSlot`-shaped output of one time-range match:
`{ start: match[1].padStart(2,'0') + ':' + match[2], end: … }`. -/
def slotStart (m : TimeMatch) : List Char := padStart2 m.g1 ++ ':' :: m.g2

/-- The padded end-of-slot string of one time-range match. -/
def slotStop (m : TimeMatch) : List Char := padStart2 m.g3 ++ ':' :: m.g4

/-- The captured groups of one `(\d+)\.(\d+):\s*([^\n]+)` match. -/
structure QueueMatch where
  g1 : List Char
  g2 : List Char
  g3 : List Char
deriving DecidableEq, Repr

/-- Attempt the queue-line pattern at the current position.  `\s*` may
swallow newlines (JavaScript `\s` matches `\n`); when everything after
the colon is whitespace, backtracking hands the largest-index non-newline
whitespace character to `[^\n]+`, which then captures just that
character. -/
def tryQueueCore (cs : List Char) : Option (QueueMatch × Nat) :=
  let (d1, r1) := cs.span isDigit
  if d1.length = 0 then none
  else match r1 with
  | '.' :: r2 =>
    let (d2, r3) := r2.span isDigit
    if d2.length = 0 then none
    else match r3 with
    | ':' :: r4 =>
      let (ws, r5) := r4.span isSpaceJS
      match r5 with
      | _ :: _ =>
        let g3 := r5.takeWhile (fun c => !(c = '\n'))
        some (⟨d1, d2, g3⟩, d1.length + 1 + d2.length + 1 + ws.length + g3.length)
      | [] =>
        let pre := ws.reverse.dropWhile (fun c => c = '\n')
        match pre with
        | [] => none
        | c :: _ =>
          some (⟨d1, d2, [c]⟩, d1.length + 1 + d2.length + 1 + pre.length)
    | _ => none
  | _ => none

/-- Attempt `(\d{1,2})\s+<name>` (a day number followed by a month name)
at the current position, returning the day's digit group. -/
def tryMonthDay (name : List Char) (cs : List Char) : Option (List Char × Nat) :=
  let (ds, r1) := cs.span isDigit
  if ds.length = 0 ∨ 2 < ds.length then none
  else
    let (ws, r2) := r1.span isSpaceJS
    if ws.length = 0 then none
    else if name.isPrefixOf r2 then some (ds, ds.length + ws.length + name.length)
    else none

/-- The captured groups of one `(\d{1,2})\.(\d{1,2})(?:\.(\d{4}))?`
numeric-date match. -/
structure NumMatch where
  day : List Char
  month : List Char
  year : Option (List Char)
deriving DecidableEq, Repr

/-- Attempt the numeric-date pattern at the current position.  The month
group takes at most two digits of the maximal run (a third digit makes
the optional year group fail, not the whole match), and the optional
`.(\d{4})` part participates only when a dot followed by exactly four
digits is present. -/
def tryNumericCore (cs : List Char) : Option (NumMatch × Nat) :=
  let (d1, r1) := cs.span isDigit
  if d1.length = 0 ∨ 2 < d1.length then none
  else match r1 with
  | '.' :: r2 =>
    let (d2full, r3) := r2.span isDigit
    if d2full.length = 0 then none
    else
      let d2 := d2full.take 2
      let rest := d2full.drop 2 ++ r3
      match rest with
      | '.' :: r4 =>
        let y := r4.take 4
        if y.length = 4 && y.all isDigit then
          some (⟨d1, d2, some y⟩, d1.length + 1 + d2.length + 5)
        else some (⟨d1, d2, none⟩, d1.length + 1 + d2.length)
      | _ => some (⟨d1, d2, none⟩, d1.length + 1 + d2.length)
  | _ => none

/-- The Ukrainian month-name table shared by both parser revisions
(genitive and nominative forms, in source order). -/
def MONTHS : List (List Char × Nat) :=
  [("січня".data, 1), ("січень".data, 1),
   ("лютого".data, 2), ("лютий".data, 2),
   ("березня".data, 3), ("березень".data, 3),
   ("квітня".data, 4), ("квітень".data, 4),
   ("травня".data, 5), ("травень".data, 5),
   ("червня".data, 6), ("червень".data, 6),
   ("липня".data, 7), ("липень".data, 7),
   ("серпня".data, 8), ("серпень".data, 8),
   ("вересня".data, 9), ("вересень".data, 9),
   ("жовтня".data, 10), ("жовтень".data, 10),
   ("листопада".data, 11), ("листопад".data, 11),
   ("грудня".data, 12), ("грудень".data, 12)]

/-- The month-table loop of both revisions' date extraction: try each
month name in table order and return the first name's day match (note:
table order, not leftmost position in the text, decides which month
wins). -/
def scanMonths : List (List Char × Nat) → List Char → Option (List Char × Nat)
  | [], _ => none
  | (name, num) :: rest, txt =>
    match scanFirst (tryMonthDay name) txt with
    | some ds => some (ds, num)
    | none => scanMonths rest txt

/-- A local calendar date, as read off a JavaScript `Date` via
`getFullYear` / `getMonth() + 1` / `getDate`.  Stands for the ambient
`new Date()` ("now") wherever the source constructs one. -/
structure LocalDate where
  year : Nat
  month : Nat
  day : Nat
deriving DecidableEq, Repr

/-- Gregorian leap-year rule (as implemented by `Date`). -/
def isLeapYear (y : Nat) : Bool :=
  decide (y % 4 = 0 ∧ (y % 100 ≠ 0 ∨ y % 400 = 0))

/-- Days in a month (as implemented by `Date`). -/
def daysInMonth (y m : Nat) : Nat :=
  if m = 2 then (if isLeapYear y then 29 else 28)
  else if m = 4 ∨ m = 6 ∨ m = 9 ∨ m = 11 then 30
  else 31

/-- `d.setDate(d.getDate() + 1)`: the next calendar day, with month and
year rollover. -/
def nextDay (d : LocalDate) : LocalDate :=
  if d.day + 1 ≤ daysInMonth d.year d.month then ⟨d.year, d.month, d.day + 1⟩
  else if d.month + 1 ≤ 12 then ⟨d.year, d.month + 1, 1⟩
  else ⟨d.year + 1, 1, 1⟩

/-- A strictly monotone encoding of calendar dates: comparisons of
midnight-normalised `Date` values agree with `Nat` comparisons of
ordinals (valid dates only; `month ≤ 12`, `day ≤ 31`). -/
def dayOrdinal (d : LocalDate) : Nat := d.year * 500 + d.month * 31 + d.day

/-- `getLocalDateString` (both revisions): `YYYY-MM-DD` with zero-padded
month and day. -/
def getLocalDateString (d : LocalDate) : List Char :=
  natDigits d.year ++ '-' :: padStart2 (natDigits d.month)
    ++ '-' :: padStart2 (natDigits d.day)

end TextUtil

/- ### Parser, canonical revision (src/src/parsers/scheduleParser.ts) -/

namespace ScheduleParser

open TextUtil

/-- The `type` field of a `Schedule` (src/src/types/index.ts):
`'current' | 'future'`. -/
inductive SType where
  | current
  | future
deriving DecidableEq, Repr

/-- `TimeSlot` (src/src/types/index.ts).  The source field `end` is a
reserved word in Lean and is embedded as `stop`. -/
structure TimeSlot where
  start : List Char
  stop : List Char
deriving DecidableEq, Repr

/-- `QueueInfo` (src/src/types/index.ts).  `queueNumber` is a JavaScript
float computed as `main + sub / 10`; it is embedded as an exact rational
(for the magnitudes involved, float comparison and equality agree with
the rational ones). -/
structure QueueInfo where
  queueNumber : ℚ
  timeSlots : List TimeSlot
  description : List Char
deriving DecidableEq, Repr

/-- `Schedule` as built by the parser (src/src/types/index.ts).
`publishedAt` keeps the message timestamp
(`new Date(message.date * 1000)`); its ISO rendering is not modelled. -/
structure Schedule where
  id : List Char
  type : SType
  date : List Char
  queues : List QueueInfo
  rawText : List Char
  publishedAt : Nat
  messageId : Nat
  channelId : List Char
  archived : Bool
deriving DecidableEq, Repr

/-- The upstream message contract (`Api.Message` as used by the parser):
numeric id, optional text, send time in seconds, optional chat id. -/
structure Message where
  id : Nat
  message : Option (List Char)
  date : Nat
  chatId : Option (List Char)
deriving DecidableEq, Repr

/-- `ScheduleParser.KEYWORDS` (scheduleParser.ts lines 20-28). -/
def KEYWORDS : List (List Char) :=
  ["графік".data, "графік відключень".data, "черга".data, "група".data,
   "відключення".data, "вимкнення".data, "знеструмлення".data]

/-- `ScheduleParser.isScheduleMessage` (scheduleParser.ts lines 33-36):
case-insensitive substring test against the keyword set. -/
def isScheduleMessage (text : List Char) : Bool :=
  KEYWORDS.any (fun kw => containsSub (lowerStr text) kw)

/-- `ScheduleParser.determineScheduleType` (scheduleParser.ts lines
41-63): `current` for today, `future` for tomorrow, `current` as the
documented fallback for anything else.  The `_text` parameter of the
source is unused and omitted; dates arrive midnight-normalised, so
`getTime()` equality is calendar-day equality. -/
def determineScheduleType (now sd : LocalDate) : SType :=
  if sd = now then .current
  else if sd = nextDay now then .future
  else .current

/-- `ScheduleParser.isRelevantDate` (scheduleParser.ts lines 68-83):
`today <= d < today + 2 days`, via the monotone day encoding. -/
def isRelevantDate (now sd : LocalDate) : Bool :=
  decide (dayOrdinal now ≤ dayOrdinal sd ∧
    dayOrdinal sd < dayOrdinal (nextDay (nextDay now)))

/-- `ScheduleParser.extractDate` (scheduleParser.ts lines 88-146): month
table first (year taken from `new Date().getFullYear()`, no rollover),
then the first numeric `DD.MM[.YYYY]` match, then the relative keywords,
then today as fallback.  This revision always returns a date string. -/
def extractDate (now : LocalDate) (text : List Char) : List Char :=
  let lowerText := lowerStr text
  match scanMonths MONTHS lowerText with
  | some (ds, monthNum) =>
    natDigits now.year ++ '-' :: padStart2 (natDigits monthNum)
      ++ '-' :: padStart2 ds
  | none =>
    match scanFirst tryNumericCore text with
    | some nm =>
      let yearStr := match nm.year with
        | some y => y
        | none => natDigits now.year
      yearStr ++ '-' :: padStart2 nm.month ++ '-' :: padStart2 nm.day
    | none =>
      if containsSub lowerText "сьогодні".data then getLocalDateString now
      else if containsSub lowerText "завтра".data then
        getLocalDateString (nextDay now)
      else getLocalDateString now

/-- `ScheduleParser.extractTimeSlotsFromLine` (scheduleParser.ts lines
151-172): every time-range match, padded, no hour bound in this
revision. -/
def extractTimeSlotsFromLine (text : List Char) : List TimeSlot :=
  (scanAll tryTimeCore text).map (fun m => ⟨slotStart m, slotStop m⟩)

/-- One `queuesMap.set(key, value)` step on the insertion-ordered map
(JavaScript `Map`: an existing key keeps its position and gets the new
value, a new key is appended). -/
def mapSet (k : Nat × Nat) (v : List TimeSlot) :
    List ((Nat × Nat) × List TimeSlot) → List ((Nat × Nat) × List TimeSlot)
  | [] => [(k, v)]
  | (k', v') :: rest =>
    if k' = k then (k, v) :: rest else (k', v') :: mapSet k v rest

/-- The body of the map-building loop of `extractQueuesWithSubQueues`
(scheduleParser.ts lines 185-197) for one queue-line match: key the
parsed `(main, sub)` numbers (the literal key string
`` `${main}.${sub}` `` is in bijection with the pair), extract the
line's slots, and store them only when non-empty. -/
def buildStep (acc : List ((Nat × Nat) × List TimeSlot)) (m : QueueMatch) :
    List ((Nat × Nat) × List TimeSlot) :=
  let key := (natOfDigits m.g1, natOfDigits m.g2)
  let timeSlots := extractTimeSlotsFromLine m.g3
  if timeSlots.length > 0 then mapSet key timeSlots acc else acc

/-- The map-building loop of `extractQueuesWithSubQueues` over all
queue-line matches. -/
def buildQueuesMap (ms : List QueueMatch) :
    List ((Nat × Nat) × List TimeSlot) :=
  ms.foldl buildStep []

/-- The `QueueInfo` built from one surviving map entry
(scheduleParser.ts lines 200-208): `queueNumber = main + sub / 10`,
description `"Черга <main>.<sub>"`. -/
def queueInfoOfEntry (e : (Nat × Nat) × List TimeSlot) : QueueInfo :=
  { queueNumber := (e.1.1 : ℚ) + (e.1.2 : ℚ) / 10,
    timeSlots := e.2,
    description := "Черга ".data ++ natDigits e.1.1 ++ '.' :: natDigits e.1.2 }

/-- Ascending order on `queueNumber` used by the final
`sort((a, b) => a.queueNumber - b.queueNumber)`. -/
def queueLe (a b : QueueInfo) : Prop := a.queueNumber ≤ b.queueNumber

instance : DecidableRel queueLe := fun a b =>
  inferInstanceAs (Decidable (a.queueNumber ≤ b.queueNumber))

instance : IsTotal QueueInfo queueLe :=
  ⟨fun a b => by unfold queueLe; exact le_total _ _⟩

instance : IsTrans QueueInfo queueLe :=
  ⟨fun _ _ _ hab hbc => by unfold queueLe at *; exact le_trans hab hbc⟩

/-- `ScheduleParser.extractQueuesWithSubQueues` (scheduleParser.ts lines
177-211): scan the queue-line pattern, build the insertion-ordered map,
convert each entry, sort ascending by `queueNumber` (stable, as
JavaScript's sort is). -/
def extractQueuesWithSubQueues (text : List Char) : List QueueInfo :=
  ((buildQueuesMap (scanAll tryQueueCore text)).map queueInfoOfEntry).insertionSort
    queueLe

/-- Case-insensitive literal prefix: consumes `lit` from `cs` comparing
lowercased characters (the `/i` flag of the legacy patterns). -/
def stripCI (lit cs : List Char) : Option (List Char) :=
  let pre := cs.take lit.length
  if pre.length = lit.length && lowerStr pre == lit then
    some (cs.drop lit.length)
  else none

/-- Attempt the legacy sub-queue pattern `(\d+)\.\d+:` (scheduleParser.ts
line 220), returning the main-queue digit group. -/
def tryP1 (cs : List Char) : Option (List Char × Nat) :=
  let (d1, r1) := cs.span isDigit
  if d1.length = 0 then none
  else match r1 with
  | '.' :: r2 =>
    let (d2, r3) := r2.span isDigit
    if d2.length = 0 then none
    else match r3 with
    | ':' :: _ => some (d1, d1.length + 1 + d2.length + 1)
    | _ => none
  | _ => none

/-- Left alternative of the legacy queue-word pattern:
`(?:черг[аи]|груп[аи])\s*[№#]?\s*(\d+)` with `/i`. -/
def tryP2L (cs : List Char) : Option (List Char × Nat) :=
  let step1 := match stripCI "черг".data cs with
    | some r => some r
    | none => stripCI "груп".data cs
  match step1 with
  | none => none
  | some (c :: r2) =>
    if lowerChar c = 'а' ∨ lowerChar c = 'и' then
      let (ws1, r3) := r2.span isSpaceJS
      let (opt, r4) := match r3 with
        | c2 :: rest => if c2 = '№' ∨ c2 = '#' then (1, rest) else (0, r3)
        | [] => (0, r3)
      let (ws2, r5) := r4.span isSpaceJS
      let (ds, _) := r5.span isDigit
      if ds.length = 0 then none
      else some (ds, 5 + ws1.length + opt + ws2.length + ds.length)
    else none
  | some [] => none

/-- Right alternative of the legacy queue-word pattern:
`(\d+)\s*(?:черг[аи]|груп[аи])` with `/i`. -/
def tryP2R (cs : List Char) : Option (List Char × Nat) :=
  let (ds, r1) := cs.span isDigit
  if ds.length = 0 then none
  else
    let (ws, r2) := r1.span isSpaceJS
    let step := match stripCI "черг".data r2 with
      | some r => some r
      | none => stripCI "груп".data r2
    match step with
    | some (c :: _) =>
      if lowerChar c = 'а' ∨ lowerChar c = 'и' then
        some (ds, ds.length + ws.length + 5)
      else none
    | _ => none

/-- The legacy queue-word pattern (scheduleParser.ts line 231): the left
alternative is preferred at each position. -/
def tryP2 (cs : List Char) : Option (List Char × Nat) :=
  match tryP2L cs with
  | some x => some x
  | none => tryP2R cs

/-- The legacy list pattern `(\d+)-[аяі]` (scheduleParser.ts line 242,
case-sensitive). -/
def tryP3 (cs : List Char) : Option (List Char × Nat) :=
  let (ds, r1) := cs.span isDigit
  if ds.length = 0 then none
  else match r1 with
  | '-' :: c :: _ =>
    if c = 'а' ∨ c = 'я' ∨ c = 'і' then some (ds, ds.length + 2) else none
  | _ => none

/-- `ScheduleParser.extractQueues` (scheduleParser.ts lines 216-253,
legacy support): three scans feeding a `Set` with the 1..6 range filter,
then ascending numeric sort.  `Array.from(set)` order is irrelevant after
the sort; `dedup` models the set. -/
def extractQueues (text : List Char) : List Nat :=
  let l1 := (scanAll tryP1 text).map natOfDigits
  let l2 := (scanAll tryP2 text).map natOfDigits
  let l3 := (scanAll tryP3 text).map natOfDigits
  (((l1 ++ l2 ++ l3).filter (fun n => decide (1 ≤ n ∧ n ≤ 6))).dedup).insertionSort
    (· ≤ ·)

/-- Attempt the `до`-form of the legacy time pattern:
`(\d{1,2}):(\d{2})\s+до\s+(\d{1,2}):(\d{2})` with `/i`. -/
def tryDoCore (cs : List Char) : Option (TimeMatch × Nat) :=
  let (d1, r1) := cs.span isDigit
  if d1.length = 0 ∨ 2 < d1.length then none
  else match r1 with
  | ':' :: m1 :: m2 :: r3 =>
    if isDigit m1 && isDigit m2 then
      let (ws1, r4) := r3.span isSpaceJS
      if ws1.length = 0 then none
      else match stripCI "до".data r4 with
      | none => none
      | some r5 =>
        let (ws2, r6) := r5.span isSpaceJS
        if ws2.length = 0 then none
        else
          let (e1, r7) := r6.span isDigit
          if e1.length = 0 ∨ 2 < e1.length then none
          else match r7 with
          | ':' :: n1 :: n2 :: _ =>
            if isDigit n1 && isDigit n2 then
              some (⟨d1, [m1, m2], e1, [n1, n2]⟩,
                d1.length + 3 + ws1.length + 2 + ws2.length + e1.length + 3)
            else none
          | _ => none
    else none
  | _ => none

/-- The legacy time pattern (scheduleParser.ts line 262): each
alternative carries an optional `(?:з\s+)?` prefix; the engine tries the
dash alternative (with, then without, the prefix), then the `до`
alternative.  Without the prefix a leading `з` can never match (the core
starts with a digit), which the branch structure reflects. -/
def tryLegacyTime (cs : List Char) : Option (TimeMatch × Nat) :=
  let prefixed : Option (Nat × List Char) := match cs with
    | c :: r1 =>
      if lowerChar c = 'з' then
        let (ws, r2) := r1.span isSpaceJS
        if ws.length = 0 then none else some (1 + ws.length, r2)
      else none
    | [] => none
  match prefixed with
  | some (k, rest) =>
    match tryTimeCore rest with
    | some (m, k2) => some (m, k + k2)
    | none =>
      match tryDoCore rest with
      | some (m, k2) => some (m, k + k2)
      | none => none
  | none =>
    match tryTimeCore cs with
    | some (m, k2) => some (m, k2)
    | none => tryDoCore cs

/-- `ScheduleParser.extractTimeSlots` (scheduleParser.ts lines 258-287,
legacy support): both alternatives produce the same padded slot. -/
def extractTimeSlots (text : List Char) : List TimeSlot :=
  (scanAll tryLegacyTime text).map (fun m => ⟨slotStart m, slotStop m⟩)

/-- `new Date(dateString)` on the `YYYY-MM-DD`-shaped strings produced by
`extractDate`, as used for the relevance check: an ISO calendar date with
in-range month and day parses to that calendar day; anything else is an
Invalid Date, embedded as `none` — every comparison against it is false,
so such a date always fails the relevance check. -/
def parseDateStr (cs : List Char) : Option LocalDate :=
  match cs.splitOn '-' with
  | [y, m, d] =>
    if y.length = 4 && y.all isDigit && m.length = 2 && m.all isDigit
        && d.length = 2 && d.all isDigit then
      let yn := natOfDigits y
      let mn := natOfDigits m
      let dn := natOfDigits d
      if 1 ≤ mn ∧ mn ≤ 12 ∧ 1 ≤ dn ∧ dn ≤ daysInMonth yn mn then
        some ⟨yn, mn, dn⟩
      else none
    else none
  | _ => none

/-- `ScheduleParser.parseMessage` (scheduleParser.ts lines 292-363).  All
rejection paths return `none`; the source's `try`/`catch` wraps pure
string processing that cannot throw, and the embedding is total by
construction.  `now` stands for the ambient `new Date()`. -/
def parseMessage (now : LocalDate) (msg : Message) : Option Schedule :=
  match msg.message with
  | none => none
  | some text =>
    if text.isEmpty then none
    else if !isScheduleMessage text then none
    else
      let date := extractDate now text
      if date.isEmpty then none
      else
        let queues0 := extractQueuesWithSubQueues text
        let queues := if queues0.length = 0 then
            let queueNumbers := extractQueues text
            let timeSlots := extractTimeSlots text
            queueNumbers.map (fun qn =>
              { queueNumber := (qn : ℚ), timeSlots := timeSlots,
                description := "Черга ".data ++ natDigits qn })
          else queues0
        if queues.length = 0 then none
        else if !queues.any (fun q => !q.timeSlots.isEmpty) then none
        else
          match parseDateStr date with
          | none => none
          | some sd =>
            if !isRelevantDate now sd then none
            else
              some
                { id := natDigits msg.id ++ '-' :: date
                  type := determineScheduleType now sd
                  date := date
                  queues := queues
                  rawText := text
                  publishedAt := msg.date
                  messageId := msg.id
                  channelId := msg.chatId.getD []
                  archived := false }

/-- `ScheduleParser.parseMessages` (scheduleParser.ts lines 368-379): the
per-message loop collecting non-null results. -/
def parseMessages (now : LocalDate) : List Message → List Schedule
  | [] => []
  | m :: rest =>
    match parseMessage now m with
    | some s => s :: parseMessages now rest
    | none => parseMessages now rest

/-- Lookup in the insertion-ordered map (JavaScript `Map.get`), used to
specify `extractQueuesWithSubQueues`. -/
def mapFind (k : Nat × Nat) :
    List ((Nat × Nat) × List TimeSlot) → Option (List TimeSlot)
  | [] => none
  | (k', v) :: rest => if k' = k then some v else mapFind k rest

/-- Specification-side description of the queue map (follows the spec's
words, to be compared with `buildQueuesMap`): per key, the time slots of
the key's LAST occurrence whose extracted slot sequence is non-empty, or
nothing when no occurrence yields slots. -/
def lastKeptSlots (ms : List QueueMatch) (k : Nat × Nat) :
    Option (List TimeSlot) :=
  ((ms.filter (fun m => decide ((natOfDigits m.g1, natOfDigits m.g2) = k)
      && !(extractTimeSlotsFromLine m.g3).isEmpty)).getLast?).map
    (fun m => extractTimeSlotsFromLine m.g3)

end ScheduleParser

/- ### Parser, refactored revision (src/unnamed/part_004) -/

namespace ScheduleParserV2

open TextUtil
open ScheduleParser (TimeSlot)

/-- `ScheduleParser.resolveYear` (part_004 lines 195-201): the reference
year, except December reference + January schedule (next year) and
January reference + December schedule (previous year).  The year is an
integer, as JavaScript arithmetic on `getFullYear()` is. -/
def resolveYear (month : Nat) (ref : LocalDate) : Int :=
  if ref.month = 12 ∧ month = 1 then (ref.year : Int) + 1
  else if ref.month = 1 ∧ month = 12 then (ref.year : Int) - 1
  else (ref.year : Int)

/-- `ScheduleParser.buildDateString` (part_004 lines 180-188): reject a
day outside [1, 31] or a month outside [1, 12], otherwise render
`YYYY-MM-DD` with zero-padded month and day. -/
def buildDateString (day : List Char) (monthNum : Nat) (year : Int) :
    Option (List Char) :=
  let d := natOfDigits day
  if d < 1 ∨ 31 < d ∨ monthNum < 1 ∨ 12 < monthNum then none
  else
    some (intDigits year ++ '-' :: padStart2 (natDigits monthNum)
      ++ '-' :: padStart2 (natDigits d))

/-- `ScheduleParser.findUkrainianDate` (part_004 lines 204-213): first
month name (in table order) with a `DD <name>` match in the lowercased
text, dated through `resolveYear`. -/
def findUkrainianDate (text : List Char) (ref : LocalDate) :
    Option (List Char) :=
  match scanMonths MONTHS (lowerStr text) with
  | some (ds, num) => buildDateString ds num (resolveYear num ref)
  | none => none

/-- `ScheduleParser.extractDate` (part_004 lines 68-75): cut the text at
the marker phrase (searching the lowercased text; `lowerChar` is
length-preserving, so the index applies to the original), then find a
Ukrainian date before it.  This revision has no numeric, relative-word or
today fallback: no match is `null`. -/
def extractDate (ref : LocalDate) (text : List Char) : Option (List Char) :=
  let markerIdx :=
    indexOfSub (lowerStr text) "години відсутності електропостачання".data
  let searchText := match markerIdx with
    | some i => text.take i
    | none => text
  findUkrainianDate searchText ref

/-- `ScheduleParser.extractTimeSlotsFromLine` (part_004 lines 77-93): as
the canonical revision, but a match whose parsed start or end hour
exceeds 24 is skipped (`continue`). -/
def extractTimeSlotsFromLine (text : List Char) : List TimeSlot :=
  (scanAll tryTimeCore text).filterMap (fun m =>
    if 24 < natOfDigits m.g1 ∨ 24 < natOfDigits m.g3 then none
    else some ⟨slotStart m, slotStop m⟩)

/-- `ScheduleParser.determineScheduleType` as this revision has it
(part_004 lines 53-57): `scheduleDay > today ? 'future' : 'current'` —
unlike the canonical revision, every day after today (not just tomorrow)
is classified `future`. -/
def determineScheduleType (now sd : LocalDate) : ScheduleParser.SType :=
  if dayOrdinal now < dayOrdinal sd then .future else .current

end ScheduleParserV2

-- ### Theorems

namespace DataManager

/-- Records produced by archival reconciliation: per-record case analysis. -/
theorem archiveOlderSchedules_mem {today : Nat} {ns : Schedule}
    {store : List Schedule} {r : Schedule}
    (h : r ∈ archiveOlderSchedules today ns store) :
    ∃ s ∈ store, r = s ∨ r = { s with archived := true } := by
  unfold archiveOlderSchedules at h
  rcases List.mem_map.mp h with ⟨s, hs, hmap⟩
  refine ⟨s, hs, ?_⟩
  unfold archiveStep at hmap
  split at hmap
  · exact Or.inl hmap.symm
  · split at hmap
    · exact Or.inl hmap.symm
    · split at hmap
      · exact Or.inr hmap.symm
      · split at hmap
        · exact Or.inr hmap.symm
        · exact Or.inl hmap.symm

/-- Claim C1 counterexample: starting from the empty store, save a
schedule for day 5 published at instant 10, then a distinct schedule for
the same day 5 published at instant 3 (with `today = 5`).  Reconciliation
on the second insert compares only against the *new* record, whose
`publishedAt` is older, so it archives nothing: the store ends with TWO
non-archived schedules for day 5, refuting both the "in either order,
exactly one is non-archived" claim and the at-most-one-per-date
invariant. -/
theorem C1_counterexample :
    (((saveSchedule 5 ⟨2, 5, 3, false, "B"⟩
        (saveSchedule 5 ⟨1, 5, 10, false, "A"⟩ []).2).2).filter
      (fun s => !s.archived && s.date == 5)).length = 2 := by
  decide

/-- Claim C1, amended: last-publish-wins holds when the record with the
later `publishedAt` is saved second.  For any two distinct non-archived
schedules `a`, `b` with the same date, `a.publishedAt < b.publishedAt`,
saving `a` and then `b` into the empty store leaves exactly one
non-archived record for that date, namely `b`.  (The original "in either
order" quantification is refuted by `C1_counterexample`.) -/
theorem C1_last_publish_wins (today : Nat) (a b : Schedule)
    (hid : a.id ≠ b.id) (hdate : a.date = b.date)
    (hpub : a.publishedAt < b.publishedAt)
    (ha : a.archived = false) (hb : b.archived = false) :
    ((saveSchedule today b (saveSchedule today a []).2).2).filter
      (fun s => !s.archived && s.date == b.date) = [b] := by
  have h1 : (saveSchedule today a []).2 = [a] := by
    simp [saveSchedule, archiveOlderSchedules, archiveStep]
  rw [h1]
  have h2 : (saveSchedule today b [a]).2
      = archiveOlderSchedules today b [a, b] := by
    simp [saveSchedule, List.findIdx?, hid]
  rw [h2]
  unfold archiveOlderSchedules
  have hsb : archiveStep today b b = b := by simp [archiveStep]
  have hsa : archiveStep today b a = { a with archived := true } := by
    by_cases h3 : a.date < today
    · simp [archiveStep, hid, ha, h3]
    · simp [archiveStep, hid, ha, h3, hdate, hpub]
  simp [hsa, hsb, hb]

/-- Witness for `C1_last_publish_wins` at concrete records. -/
theorem C1_witness :
    ((saveSchedule 5 ⟨2, 5, 10, false, "B"⟩
        (saveSchedule 5 ⟨1, 5, 3, false, "A"⟩ []).2).2).filter
      (fun s => !s.archived && s.date == 5) = [⟨2, 5, 10, false, "B"⟩] := by
  have h := C1_last_publish_wins 5 ⟨1, 5, 3, false, "A"⟩ ⟨2, 5, 10, false, "B"⟩
    (by decide) (by decide) (by decide) (by decide) (by decide)
  simpa using h

end DataManager

namespace DataManager

/-- `archiveStep` never changes a record's `id`. -/
theorem archiveStep_id (t : Nat) (ns s : Schedule) :
    (archiveStep t ns s).id = s.id := by
  unfold archiveStep
  split
  · rfl
  · split
    · rfl
    · split
      · rfl
      · split <;> rfl

/-- `archiveStep` either leaves a record unchanged or only flips its
`archived` flag to `true`. -/
theorem archiveStep_cases (t : Nat) (ns s : Schedule) :
    archiveStep t ns s = s ∨ archiveStep t ns s = { s with archived := true } := by
  unfold archiveStep
  split
  · exact Or.inl rfl
  · split
    · exact Or.inl rfl
    · split
      · exact Or.inr rfl
      · split
        · exact Or.inr rfl
        · exact Or.inl rfl

/-- Archival reconciliation preserves the number of records carrying any
given `id`. -/
theorem countP_archiveOlderSchedules (t : Nat) (ns : Schedule)
    (l : List Schedule) (k : Nat) :
    (archiveOlderSchedules t ns l).countP (fun r => r.id == k)
      = l.countP (fun r => r.id == k) := by
  unfold archiveOlderSchedules
  rw [List.countP_map]
  refine List.countP_congr (fun a _ => ?_)
  simp [Function.comp, archiveStep_id]

/-- Archival reconciliation preserves the store's length. -/
theorem length_archiveOlderSchedules (t : Nat) (ns : Schedule)
    (l : List Schedule) :
    (archiveOlderSchedules t ns l).length = l.length := by
  simp [archiveOlderSchedules]

/-- After any `saveSchedule`, the store holds exactly one record with the
saved `id`, provided it held at most one before (which is invariant from
the empty store, since the insert branch fires only when the `id` is
absent). -/
theorem save_countP (t : Nat) (s : Schedule) (l : List Schedule)
    (h : l.countP (fun r => r.id == s.id) ≤ 1) :
    (saveSchedule t s l).2.countP (fun r => r.id == s.id) = 1 := by
  cases hfi : l.findIdx? (fun r => r.id == s.id) with
  | none =>
    have hsave : saveSchedule t s l
        = (true, archiveOlderSchedules t s (l ++ [s])) := by
      unfold saveSchedule; rw [hfi]
    have hz : l.countP (fun r => r.id == s.id) = 0 := by
      rw [List.countP_eq_zero]
      intro a ha
      simp only [List.findIdx?_eq_none_iff] at hfi
      simp [hfi a ha]
    rw [hsave]
    simp [countP_archiveOlderSchedules, hz]
  | some i =>
    have hsave : saveSchedule t s l = (false, l.set i s) := by
      unfold saveSchedule; rw [hfi]
    rcases List.findIdx?_eq_some_iff_getElem.mp hfi with ⟨hlen, hpi, _⟩
    have hdec : l.set i s = l.take i ++ s :: l.drop (i + 1) :=
      List.set_eq_take_cons_drop s hlen
    have hl : l = l.take i ++ l[i] :: l.drop (i + 1) := by
      conv_lhs => rw [← List.take_append_drop i l]
      rw [← List.getElem_cons_drop l i hlen]
    have hcnt := h
    rw [hl, List.countP_append, List.countP_cons] at hcnt
    simp only [hpi, if_true] at hcnt
    have htake : (l.take i).countP (fun r => r.id == s.id) = 0 := by omega
    have hdrop : (l.drop (i + 1)).countP (fun r => r.id == s.id) = 0 := by omega
    rw [hsave]
    simp only [hdec, List.countP_append, List.countP_cons, htake, hdrop]
    simp

/-- The "existing id" branch of `saveSchedule`, fully specified: when the
store holds exactly one record with `s.id`, saving `s` returns `false`,
replaces that record in place with `s`, and leaves every other record —
including its `archived` flag — untouched. -/
theorem save_replace_spec (t : Nat) (s : Schedule) (l : List Schedule)
    (h1 : l.countP (fun r => r.id == s.id) = 1) :
    (saveSchedule t s l).1 = false ∧
    (saveSchedule t s l).2.countP (fun r => r.id == s.id) = 1 ∧
    (∀ r ∈ (saveSchedule t s l).2, r.id = s.id → r = s) ∧
    (saveSchedule t s l).2.filter (fun r => !(r.id == s.id))
      = l.filter (fun r => !(r.id == s.id)) := by
  have hex : ∃ a ∈ l, ((fun r : Schedule => r.id == s.id) a) = true := by
    rw [← List.countP_pos_iff]; omega
  have hfi : l.findIdx? (fun r => r.id == s.id)
      = some (l.findIdx (fun r => r.id == s.id)) := by
    apply List.findIdx?_eq_some_of_exists
    rcases hex with ⟨a, ha, hpa⟩
    exact ⟨a, ha, hpa⟩
  set i := l.findIdx (fun r => r.id == s.id) with hidef
  rcases List.findIdx?_eq_some_iff_getElem.mp hfi with ⟨hlen, hpi, _⟩
  have hdec : l.set i s = l.take i ++ s :: l.drop (i + 1) :=
    List.set_eq_take_cons_drop s hlen
  have hl : l = l.take i ++ l[i] :: l.drop (i + 1) := by
    conv_lhs => rw [← List.take_append_drop i l]
    rw [← List.getElem_cons_drop l i hlen]
  have hcnt := h1
  rw [hl, List.countP_append, List.countP_cons] at hcnt
  simp only [hpi, if_true] at hcnt
  have htake : (l.take i).countP (fun r => r.id == s.id) = 0 := by omega
  have hdrop : (l.drop (i + 1)).countP (fun r => r.id == s.id) = 0 := by omega
  have htake' : ∀ r ∈ l.take i, ¬ (r.id == s.id) = true :=
    List.countP_eq_zero.mp htake
  have hdrop' : ∀ r ∈ l.drop (i + 1), ¬ (r.id == s.id) = true :=
    List.countP_eq_zero.mp hdrop
  have hsave : saveSchedule t s l = (false, l.set i s) := by
    unfold saveSchedule; rw [hfi]
  rw [hsave]
  refine ⟨rfl, ?_, ?_, ?_⟩
  · simp only [hdec, List.countP_append, List.countP_cons, htake, hdrop]
    simp
  · intro r hr hrid
    rw [hdec] at hr
    rcases List.mem_append.mp hr with hr | hr
    · exact absurd (by simp [hrid] : (r.id == s.id) = true) (htake' r hr)
    · rcases List.mem_cons.mp hr with rfl | hr
      · rfl
      · exact absurd (by simp [hrid] : (r.id == s.id) = true) (hdrop' r hr)
  · conv_rhs => rw [hl]
    rw [hdec, List.filter_append, List.filter_append]
    congr 1
    rw [List.filter_cons, List.filter_cons]
    have hps : (!(s.id == s.id)) = false := by simp
    have hpi' : (!(l[i].id == s.id)) = false := by simp [hpi]
    simp only [hps, hpi']
    simp

end DataManager

namespace DataManager

/-- Claim C2: saving twice with the same `id` — the second call hits the
"update in place" branch of `saveSchedule` (dataManager.ts lines 39-43):
it returns `false`, the store holds exactly one record with that `id`,
that record is the second call's argument, and every other record —
including its `archived` flag — is exactly as the first call left it (so
the update triggers no archival side effects).  The hypothesis that the
initial store holds at most one record with the `id` is the store's own
uniqueness invariant (the insert branch fires only when the `id` is
absent, so it holds for every store reachable from empty). -/
theorem C2_idempotent_same_id_save (t1 t2 : Nat) (s1 s2 : Schedule)
    (st0 : List Schedule) (hid : s1.id = s2.id)
    (hcount : st0.countP (fun r => r.id == s1.id) ≤ 1) :
    (saveSchedule t2 s2 (saveSchedule t1 s1 st0).2).1 = false ∧
    (saveSchedule t2 s2 (saveSchedule t1 s1 st0).2).2.countP
      (fun r => r.id == s2.id) = 1 ∧
    (∀ r ∈ (saveSchedule t2 s2 (saveSchedule t1 s1 st0).2).2,
      r.id = s2.id → r = s2) ∧
    (saveSchedule t2 s2 (saveSchedule t1 s1 st0).2).2.filter
        (fun r => !(r.id == s2.id))
      = (saveSchedule t1 s1 st0).2.filter (fun r => !(r.id == s2.id)) := by
  have hpred : (fun r : Schedule => r.id == s2.id)
      = (fun r : Schedule => r.id == s1.id) := by
    funext r; rw [hid]
  have h1 : (saveSchedule t1 s1 st0).2.countP (fun r => r.id == s2.id) = 1 := by
    rw [hpred]; exact save_countP t1 s1 st0 hcount
  have hmain := save_replace_spec t2 s2 (saveSchedule t1 s1 st0).2 h1
  exact hmain

/-- Witness for `C2_idempotent_same_id_save` at concrete inputs: record id
1 saved twice (contents "x" then "y") into the empty store. -/
theorem C2_witness :
    (saveSchedule 5 ⟨1, 5, 4, false, "y"⟩
      (saveSchedule 5 ⟨1, 5, 3, false, "x"⟩ []).2).1 = false ∧
    (saveSchedule 5 ⟨1, 5, 4, false, "y"⟩
      (saveSchedule 5 ⟨1, 5, 3, false, "x"⟩ []).2).2
      = [⟨1, 5, 4, false, "y"⟩] := by
  refine ⟨(C2_idempotent_same_id_save 5 5 ⟨1, 5, 3, false, "x"⟩
    ⟨1, 5, 4, false, "y"⟩ [] rfl (by decide)).1, by decide⟩

/-- One mutating operation cannot un-archive a record with id `i` unless
it is a `saveSchedule` call whose argument carries that very id. -/
theorem applyOp_archived_mono (st : List Schedule) (op : Op) (i : Nat)
    (hop : ¬ op.savesId i)
    (hst : ∀ r ∈ st, r.id = i → r.archived = true) :
    ∀ r ∈ applyOp st op, r.id = i → r.archived = true := by
  intro r hr hri
  cases op with
  | cleanup =>
    simp only [applyOp, cleanupOldSchedules] at hr
    exact hst r (List.mem_of_mem_filter hr) hri
  | save t s =>
    have hsid : s.id ≠ i := hop
    simp only [applyOp] at hr
    unfold saveSchedule at hr
    cases hfi : st.findIdx? (fun r => r.id == s.id) with
    | none =>
      rw [hfi] at hr
      rcases archiveOlderSchedules_mem hr with ⟨x, hx, hcase⟩
      have hxarch : x.id = i → x.archived = true := by
        intro hxi
        rcases List.mem_append.mp hx with hx | hx
        · exact hst x hx hxi
        · rcases List.mem_singleton.mp hx with rfl
          exact absurd hxi hsid
      rcases hcase with rfl | rfl
      · exact hxarch hri
      · rfl
    | some j =>
      rw [hfi] at hr
      rcases List.mem_or_eq_of_mem_set hr with hr | rfl
      · exact hst r hr hri
      · exact absurd hri hsid

/-- Claim C3 counterexample: record 1 (day 5, published at 3) is archived
once record 2 (same day, published at 10) is inserted; re-delivering
record 1 through `saveSchedule` then hits the update branch, which
replaces the archived record wholesale with the incoming
`archived = false` copy — the record's `archived` flag transitions from
`true` back to `false` while the record stays in the store. -/
theorem C3_counterexample :
    ((runOps [.save 5 ⟨1, 5, 3, false, "A"⟩, .save 5 ⟨2, 5, 10, false, "B"⟩]
        []).any (fun r => r.id == 1 && r.archived)) = true ∧
    ((runOps [.save 5 ⟨1, 5, 3, false, "A"⟩, .save 5 ⟨2, 5, 10, false, "B"⟩,
        .save 5 ⟨1, 5, 3, false, "A"⟩] []).any
      (fun r => r.id == 1 && !r.archived)) = true := by
  constructor <;> decide

/-- Claim C3, amended: `archived` is one-way for a record id under every
operation sequence that never re-saves that id — archival reconciliation
only sets the flag, `cleanupOldSchedules` only removes records, and the
queries do not mutate.  (The exception, forced by `C3_counterexample`, is
a `saveSchedule` call reusing the id: its update branch replaces the
record wholesale and can reset `archived` to `false`.) -/
theorem C3_archived_one_way (ops : List Op) (st : List Schedule) (i : Nat)
    (hops : ∀ op ∈ ops, ¬ op.savesId i)
    (hst : ∀ r ∈ st, r.id = i → r.archived = true) :
    ∀ r ∈ runOps ops st, r.id = i → r.archived = true := by
  induction ops generalizing st with
  | nil => simpa [runOps] using hst
  | cons op ops ih =>
    have hstep := applyOp_archived_mono st op i (hops op (List.mem_cons_self op ops)) hst
    have := ih (applyOp st op) (fun o ho => hops o (List.mem_cons_of_mem op ho)) hstep
    simpa [runOps] using this

/-- Witness for `C3_archived_one_way`: the archived record 1 stays
archived across an unrelated insert followed by no re-save of id 1. -/
theorem C3_witness :
    (⟨1, 5, 3, true, "A"⟩ : Schedule).archived = true := by
  refine C3_archived_one_way [.save 9 ⟨2, 9, 1, false, "B"⟩]
    [⟨1, 5, 3, true, "A"⟩] 1 ?_ ?_ ⟨1, 5, 3, true, "A"⟩ ?_ rfl
  · intro op hop
    rcases List.mem_singleton.mp hop with rfl
    simp [Op.savesId]
  · intro r hr hri
    rcases List.mem_singleton.mp hr with rfl
    rfl
  · decide

end DataManager

namespace DataManager

/-- Claim C9: `getHistory` returns at most `limit` records; every returned
record is dated today or tomorrow (past- or far-future-dated records are
never returned, archived or not); the result is sorted by `publishedAt`
descending; and the default limit is 10. -/
theorem C9_getHistory_bounds (today limit : Nat) (store : List Schedule) :
    (getHistory today limit store).length ≤ limit ∧
    (∀ s ∈ getHistory today limit store, s.date = today ∨ s.date = today + 1) ∧
    (getHistory today limit store).Sorted pubDesc ∧
    getHistoryDefault today store = getHistory today 10 store := by
  refine ⟨List.length_take_le limit _, ?_, ?_, rfl⟩
  · intro s hs
    have hs1 : s ∈ (store.filter (isRelevantSchedule today)).insertionSort pubDesc :=
      (List.take_sublist limit _).subset hs
    have hs2 : s ∈ store.filter (isRelevantSchedule today) :=
      (List.perm_insertionSort pubDesc _).subset hs1
    have := List.of_mem_filter hs2
    simp only [isRelevantSchedule, decide_eq_true_eq] at this
    omega
  · exact List.Pairwise.sublist (List.take_sublist limit _)
      (List.sorted_insertionSort pubDesc _)

/-- Witness for `C9_getHistory_bounds` at a concrete store: one relevant
record for day 7. -/
theorem C9_witness :
    (getHistory 7 5 [⟨1, 7, 3, false, "A"⟩]).length ≤ 5 ∧
    ((⟨1, 7, 3, false, "A"⟩ : Schedule).date = 7 ∨
      (⟨1, 7, 3, false, "A"⟩ : Schedule).date = 7 + 1) := by
  refine ⟨(C9_getHistory_bounds 7 5 [⟨1, 7, 3, false, "A"⟩]).1,
    (C9_getHistory_bounds 7 5 [⟨1, 7, 3, false, "A"⟩]).2.1
      ⟨1, 7, 3, false, "A"⟩ (by decide)⟩

/-- Claim C10: `saveSchedule` returns `true` exactly when no record with
the given `id` was present (in which case the record is appended, growing
the store by one, and archival reconciliation runs), and `false` exactly
when a record with that `id` existed (in which case that record is
replaced in place: the store keeps its length and every resulting record
is either the saved one or was already present). -/
theorem C10_saveSchedule_result (today : Nat) (s : Schedule)
    (store : List Schedule) :
    ((saveSchedule today s store).1 = true ↔ ∀ r ∈ store, r.id ≠ s.id) ∧
    ((saveSchedule today s store).1 = true →
      (saveSchedule today s store).2.length = store.length + 1 ∧
      s ∈ (saveSchedule today s store).2) ∧
    ((saveSchedule today s store).1 = false →
      (saveSchedule today s store).2.length = store.length ∧
      s ∈ (saveSchedule today s store).2 ∧
      ∀ r ∈ (saveSchedule today s store).2, r = s ∨ r ∈ store) := by
  cases hfi : store.findIdx? (fun r => r.id == s.id) with
  | none =>
    have hsave : saveSchedule today s store
        = (true, archiveOlderSchedules today s (store ++ [s])) := by
      unfold saveSchedule; rw [hfi]
    rw [hsave]
    simp only [List.findIdx?_eq_none_iff] at hfi
    refine ⟨?_, ?_, ?_⟩
    · simp only [true_iff]
      intro r hr
      have := hfi r hr
      simpa using this
    · intro _
      constructor
      · simp [length_archiveOlderSchedules]
      · have hself : archiveStep today s s = s := by simp [archiveStep]
        have : s ∈ store ++ [s] := List.mem_append_right _ (List.mem_singleton.mpr rfl)
        unfold archiveOlderSchedules
        exact List.mem_map.mpr ⟨s, this, hself⟩
    · intro h
      simp at h
  | some i =>
    have hsave : saveSchedule today s store = (false, store.set i s) := by
      unfold saveSchedule; rw [hfi]
    rcases List.findIdx?_eq_some_iff_getElem.mp hfi with ⟨hlen, hpi, _⟩
    rw [hsave]
    refine ⟨?_, ?_, ?_⟩
    · simp only [Bool.false_eq_true, false_iff]
      intro hall
      exact hall store[i] (store.getElem_mem hlen) (by simpa using hpi)
    · intro h
      simp at h
    · intro _
      refine ⟨List.length_set store i s, List.mem_set store i hlen s, ?_⟩
      intro r hr
      rcases List.mem_or_eq_of_mem_set hr with hr | rfl
      · exact Or.inr hr
      · exact Or.inl rfl

/-- Witness for `C10_saveSchedule_result`: inserting into the empty store
returns `true` and grows the store to one record. -/
theorem C10_witness :
    (saveSchedule 0 ⟨1, 0, 0, false, "A"⟩ []).2.length
      = ([] : List Schedule).length + 1 := by
  exact ((C10_saveSchedule_result 0 ⟨1, 0, 0, false, "A"⟩ []).2.1 (by decide)).1

end DataManager

namespace TextUtil

/-- `nextDay` always moves to a different calendar day. -/
theorem nextDay_ne (d : LocalDate) : nextDay d ≠ d := by
  intro h
  unfold nextDay at h
  split at h
  · have := congrArg LocalDate.day h; simp at this
  · split at h
    · have := congrArg LocalDate.month h; simp at this
    · have := congrArg LocalDate.year h; simp at this

end TextUtil

namespace ScheduleParser

open TextUtil

/-- Claim C5: for every reference day and schedule day,
`determineScheduleType` returns `future` exactly on tomorrow and
`current` on every other day — today, past days and far-future days alike
(the documented fallback), never any other value.  (The part_004 revision
of the function differs: see `ScheduleParserV2.determineScheduleType`.) -/
theorem C5_determine_schedule_type (now sd : LocalDate) :
    determineScheduleType now sd
      = if sd = nextDay now then SType.future else SType.current := by
  unfold determineScheduleType
  by_cases h1 : sd = now
  · subst h1
    rw [if_pos rfl, if_neg]
    intro h2
    exact nextDay_ne sd h2.symm
  · rw [if_neg h1]

/-- In the part_004 revision, a day after tomorrow is classified
`future`, diverging from the canonical revision's documented `current`
fallback (claim C5 is stated about the canonical revision). -/
theorem determineScheduleTypeV2_after_tomorrow :
    ScheduleParserV2.determineScheduleType ⟨2026, 2, 15⟩ ⟨2026, 2, 17⟩
      = SType.future ∧
    determineScheduleType ⟨2026, 2, 15⟩ ⟨2026, 2, 17⟩ = SType.current := by
  constructor <;> decide

/-- `parseMessages` is exactly `filterMap` of `parseMessage`. -/
theorem parseMessages_eq_filterMap (now : LocalDate) (msgs : List Message) :
    parseMessages now msgs = msgs.filterMap (parseMessage now) := by
  induction msgs with
  | nil => rfl
  | cons m rest ih =>
    unfold parseMessages
    rw [List.filterMap_cons]
    cases parseMessage now m <;> simp [ih]

/-- Claim C7: parsing is total and per-message — `parseMessages` is the
`filterMap` of the total function `parseMessage` (the embedding of
`parseMessage` is total by construction, mirroring the source where every
rejection path returns `null` and the `try`/`catch` guards pure string
processing), it distributes over batch concatenation (so one rejected
message never prevents later messages from being parsed), and messages
with absent or empty text are rejected with `none`. -/
theorem C7_parser_rejection (now : LocalDate) :
    (∀ msgs : List Message,
      parseMessages now msgs = msgs.filterMap (parseMessage now)) ∧
    (∀ a b : List Message,
      parseMessages now (a ++ b) = parseMessages now a ++ parseMessages now b) ∧
    (∀ i d c, parseMessage now ⟨i, none, d, c⟩ = none) ∧
    (∀ i d c, parseMessage now ⟨i, some [], d, c⟩ = none) := by
  refine ⟨parseMessages_eq_filterMap now, ?_, ?_, ?_⟩
  · intro a b
    rw [parseMessages_eq_filterMap, parseMessages_eq_filterMap,
      parseMessages_eq_filterMap, List.filterMap_append]
  · intro i d c
    rfl
  · intro i d c
    rfl

end ScheduleParser

/-- A `filterMap` whose function is an if-guarded `some` is the `map`
over the `filter` of the guard's negation. -/
theorem filterMap_ite_eq_map_filter {α β : Type} (p : α → Prop)
    [DecidablePred p] (f : α → β) (l : List α) :
    l.filterMap (fun a => if p a then none else some (f a))
      = (l.filter (fun a => decide (¬ p a))).map f := by
  induction l with
  | nil => rfl
  | cons a t ih =>
    rw [List.filterMap_cons, List.filter_cons]
    by_cases h : p a
    · simp [h, ih]
    · simp [h, ih]

namespace ScheduleParserV2

open TextUtil
open ScheduleParser (TimeSlot)

/-- Claim C8 (part_004 revision of `extractTimeSlotsFromLine`, where the
bound lives): the extracted slots are exactly the time-range matches of
the line, left to right with duplicates preserved, minus those whose
parsed start or end hour exceeds 24 — so hour 24 itself passes.  The
concrete conjunct shows `25:00-26:00` rejected and the duplicated
`24:00 – 24:30` kept twice in order. -/
theorem C8_hour_bound :
    (∀ line : List Char,
      extractTimeSlotsFromLine line
        = ((scanAll tryTimeCore line).filter
            (fun m => decide (natOfDigits m.g1 ≤ 24 ∧ natOfDigits m.g3 ≤ 24))).map
            (fun m => ⟨slotStart m, slotStop m⟩)) ∧
    extractTimeSlotsFromLine "24:00 – 24:30, 25:00-26:00, 24:00 – 24:30".data
      = [⟨"24:00".data, "24:30".data⟩, ⟨"24:00".data, "24:30".data⟩] := by
  constructor
  · intro line
    unfold extractTimeSlotsFromLine
    rw [filterMap_ite_eq_map_filter
      (fun m : TimeMatch => 24 < natOfDigits m.g1 ∨ 24 < natOfDigits m.g3)
      (fun m : TimeMatch => (⟨slotStart m, slotStop m⟩ : TimeSlot))
      (scanAll tryTimeCore line)]
    congr 1
    apply List.filter_congr
    intro m _
    rw [decide_eq_decide]
    omega
  · decide

/-- Claim C4: whenever the month-table scan finds a day-number + Ukrainian
month name (and the power-absence marker is absent, so the whole text is
searched), `extractDate` dates it through `resolveYear`: the reference
year, except December reference + January month (next year) and January
reference + December month (previous year). -/
theorem C4_year_rollover (text : List Char) (ref : LocalDate)
    (ds : List Char) (m : Nat)
    (hmark : indexOfSub (lowerStr text)
      "години відсутності електропостачання".data = none)
    (h : scanMonths MONTHS (lowerStr text) = some (ds, m)) :
    extractDate ref text
      = buildDateString ds m
          (if ref.month = 12 ∧ m = 1 then (ref.year : Int) + 1
           else if ref.month = 1 ∧ m = 12 then (ref.year : Int) - 1
           else (ref.year : Int)) := by
  unfold extractDate findUkrainianDate
  rw [hmark]
  simp only
  rw [h]
  rfl

/-- Witness for `C4_year_rollover`, the spec's own example: reference day
2025-12-30, text "Графік на 3 січня" — resolved to 2026-01-03, not
2025-01-03. -/
theorem C4_witness :
    extractDate ⟨2025, 12, 30⟩ "Графік на 3 січня".data
      = some "2026-01-03".data := by
  have h := C4_year_rollover "Графік на 3 січня".data ⟨2025, 12, 30⟩ ['3'] 1
    (by decide) (by decide)
  rw [h]
  decide

end ScheduleParserV2

/-- `Option.map` distributes over `Option.or`. -/
theorem option_map_or {α β : Type} (f : α → β) (x y : Option α) :
    (x.or y).map f = (x.map f).or (y.map f) := by
  cases x <;> simp

/-- `getLast?` of a cons, phrased with `Option.or`. -/
theorem getLast?_cons_or {α : Type} (a : α) (l : List α) :
    (a :: l).getLast? = (l.getLast?).or (some a) := by
  cases l with
  | nil => rfl
  | cons b t =>
    rw [List.getLast?_cons_cons]
    cases h : (b :: t).getLast? with
    | none => exact absurd (List.getLast?_eq_none_iff.mp h) (by simp)
    | some y => simp

namespace ScheduleParser

open TextUtil

/-- `Map.get` after `Map.set`: the set key yields the new value, others
are unaffected. -/
theorem mapFind_mapSet (k k' : Nat × Nat) (v : List TimeSlot)
    (acc : List ((Nat × Nat) × List TimeSlot)) :
    mapFind k (mapSet k' v acc) = if k' = k then some v else mapFind k acc := by
  induction acc with
  | nil => simp [mapSet, mapFind]
  | cons e rest ih =>
    obtain ⟨ke, ve⟩ := e
    by_cases h1 : ke = k'
    · subst h1
      by_cases h2 : ke = k <;> simp [mapSet, mapFind, h2]
    · by_cases h3 : ke = k
      · subst h3
        have h2 : k' ≠ ke := fun hh => h1 hh.symm
        simp [mapSet, mapFind, h1, h2]
      · simp [mapSet, mapFind, h1, h3, ih]

/-- Every element of `mapSet k v acc` is the new entry or an old one. -/
theorem mem_mapSet {e : (Nat × Nat) × List TimeSlot}
    {k : Nat × Nat} {v : List TimeSlot}
    {acc : List ((Nat × Nat) × List TimeSlot)} (h : e ∈ mapSet k v acc) :
    e = (k, v) ∨ e ∈ acc := by
  induction acc with
  | nil => simpa [mapSet] using h
  | cons e' rest ih =>
    obtain ⟨ke, ve⟩ := e'
    unfold mapSet at h
    by_cases h1 : ke = k
    · rw [if_pos h1] at h
      rcases List.mem_cons.mp h with rfl | h
      · exact Or.inl rfl
      · exact Or.inr (List.mem_cons_of_mem _ h)
    · rw [if_neg h1] at h
      rcases List.mem_cons.mp h with rfl | h
      · exact Or.inr (List.mem_cons_self _ _)
      · rcases ih h with h | h
        · exact Or.inl h
        · exact Or.inr (List.mem_cons_of_mem _ h)

/-- `mapSet` keeps the map's keys pairwise distinct. -/
theorem pairwise_keys_mapSet {k : Nat × Nat} {v : List TimeSlot}
    {acc : List ((Nat × Nat) × List TimeSlot)}
    (h : List.Pairwise (fun e1 e2 => e1.1 ≠ e2.1) acc) :
    List.Pairwise (fun e1 e2 => e1.1 ≠ e2.1) (mapSet k v acc) := by
  induction acc with
  | nil => simp [mapSet]
  | cons e rest ih =>
    obtain ⟨ke, ve⟩ := e
    rcases List.pairwise_cons.mp h with ⟨hhead, htail⟩
    unfold mapSet
    by_cases h1 : ke = k
    · rw [if_pos h1]
      refine List.pairwise_cons.mpr ⟨?_, htail⟩
      intro e he
      exact h1 ▸ hhead e he
    · rw [if_neg h1]
      refine List.pairwise_cons.mpr ⟨?_, ih htail⟩
      intro e he
      rcases mem_mapSet he with rfl | he
      · exact h1
      · exact hhead e he

/-- The queue map built by the loop always has pairwise-distinct keys. -/
theorem pairwise_keys_foldl_buildStep (ms : List QueueMatch)
    (acc : List ((Nat × Nat) × List TimeSlot))
    (h : List.Pairwise (fun e1 e2 => e1.1 ≠ e2.1) acc) :
    List.Pairwise (fun e1 e2 => e1.1 ≠ e2.1) (ms.foldl buildStep acc) := by
  induction ms generalizing acc with
  | nil => simpa using h
  | cons m rest ih =>
    rw [List.foldl_cons]
    apply ih
    unfold buildStep
    by_cases hl : (extractTimeSlotsFromLine m.g3).length > 0
    · rw [if_pos hl]
      exact pairwise_keys_mapSet h
    · rw [if_neg hl]
      exact h

/-- Lookup in the map built from a match stream: the last kept occurrence
of the key in the stream, falling back to the accumulator. -/
theorem mapFind_foldl_buildStep (ms : List QueueMatch)
    (acc : List ((Nat × Nat) × List TimeSlot)) (k : Nat × Nat) :
    mapFind k (ms.foldl buildStep acc)
      = (lastKeptSlots ms k).or (mapFind k acc) := by
  induction ms generalizing acc with
  | nil => simp [lastKeptSlots]
  | cons m rest ih =>
    rw [List.foldl_cons, ih]
    unfold lastKeptSlots
    rw [List.filter_cons]
    by_cases hkey : (natOfDigits m.g1, natOfDigits m.g2) = k
    · by_cases hemp : (extractTimeSlotsFromLine m.g3).isEmpty
      · have hlen : ¬ (extractTimeSlotsFromLine m.g3).length > 0 := by
          rw [List.isEmpty_iff] at hemp
          simp [hemp]
        simp only [buildStep, if_neg hlen, hkey, hemp]
        simp [lastKeptSlots]
      · have hemp' : (extractTimeSlotsFromLine m.g3).isEmpty = false := by
          simpa using hemp
        have hlen : (extractTimeSlotsFromLine m.g3).length > 0 := by
          rw [List.isEmpty_iff] at hemp
          exact List.length_pos.mpr hemp
        have hcond : (decide ((natOfDigits m.g1, natOfDigits m.g2) = k)
            && !(extractTimeSlotsFromLine m.g3).isEmpty) = true := by
          simp [hkey, hemp']
        rw [if_pos hcond, getLast?_cons_or, option_map_or]
        simp only [buildStep, if_pos hlen, hkey, mapFind_mapSet, if_pos rfl]
        rw [Option.or_assoc]
        simp [lastKeptSlots]
    · have hcond : (decide ((natOfDigits m.g1, natOfDigits m.g2) = k)
          && !(extractTimeSlotsFromLine m.g3).isEmpty) = false := by
        simp [hkey]
      rw [if_neg (by simp [hcond])]
      unfold buildStep
      by_cases hlen : (extractTimeSlotsFromLine m.g3).length > 0
      · rw [if_pos hlen, mapFind_mapSet, if_neg hkey]
      · rw [if_neg hlen]

/-- Lookup in the finished queue map is exactly the last kept occurrence. -/
theorem mapFind_buildQueuesMap (ms : List QueueMatch) (k : Nat × Nat) :
    mapFind k (buildQueuesMap ms) = lastKeptSlots ms k := by
  unfold buildQueuesMap
  rw [mapFind_foldl_buildStep]
  simp [mapFind]

end ScheduleParser

namespace ScheduleParser

open TextUtil

/-- Claim C6 counterexample: the sub-queue keys `1.20` and `3.0` are
distinct (so both survive the map) yet both encode to
`queueNumber = main + sub / 10 = 3` — the output carries duplicate queue
numbers, refuting part (d) of the claim. -/
theorem C6_counterexample :
    (extractQueuesWithSubQueues
      "1.20: 08:00-09:00\n3.0: 10:00-11:00".data).map (fun q => q.queueNumber)
      = [3, 3] := by
  have h1 : buildQueuesMap (scanAll tryQueueCore
      "1.20: 08:00-09:00\n3.0: 10:00-11:00".data)
      = [((1, 20), [⟨"08:00".data, "09:00".data⟩]),
         ((3, 0), [⟨"10:00".data, "11:00".data⟩])] := by
    decide
  unfold extractQueuesWithSubQueues
  rw [h1]
  norm_num [queueInfoOfEntry, List.insertionSort, List.orderedInsert, queueLe]

/-- Claim C6, amended: `extractQueuesWithSubQueues` emits, for each
`(main, sub)` key, at most one entry — its slots are those of the key's
last occurrence with a non-empty extracted slot sequence, keys none of
whose occurrences yield slots are dropped (`lastKeptSlots` is the
spec-side description, compared with the map the code builds) — converts
each entry by `queueInfoOfEntry` (`queueNumber = main + sub/10`,
description `"Черга <main>.<sub>"`), and sorts non-strictly ascending by
`queueNumber`.  Keys are pairwise distinct, but distinct keys may collide
to equal queue numbers (see `C6_counterexample`), so "no duplicate queue
numbers" does not hold. -/
theorem C6_queue_extraction (text : List Char) :
    List.Sorted queueLe (extractQueuesWithSubQueues text) ∧
    (extractQueuesWithSubQueues text).Perm
      ((buildQueuesMap (scanAll tryQueueCore text)).map queueInfoOfEntry) ∧
    List.Pairwise (fun e1 e2 => e1.1 ≠ e2.1)
      (buildQueuesMap (scanAll tryQueueCore text)) ∧
    ∀ k, mapFind k (buildQueuesMap (scanAll tryQueueCore text))
      = lastKeptSlots (scanAll tryQueueCore text) k := by
  refine ⟨?_, ?_, ?_, fun k => mapFind_buildQueuesMap _ k⟩
  · unfold extractQueuesWithSubQueues
    exact List.sorted_insertionSort queueLe _
  · unfold extractQueuesWithSubQueues
    exact List.perm_insertionSort queueLe _
  · unfold buildQueuesMap
    exact pairwise_keys_foldl_buildStep _ [] List.Pairwise.nil

end ScheduleParser
